import Mathlib

/-!
Verification of the `LicenseContract` CIS2 NFT / license ledger contract
(`src/lib.rs`).  The contract state and every entrypoint relevant to the
claims are embedded as executable Lean definitions; mutating operations are
modelled in state-passing style `State → State × Option Error`, where the
returned state is the state as left by the Rust code (including mutations
performed before an error is raised) and the second component is the
rejection, if any.  Sets (`StateSet`) are modelled as `Finset`, maps
(`StateMap`) as association lists with first-match lookup.
-/

set_option maxRecDepth 10000

namespace LicenseContract

/-- An address: either a 32-byte account address (modelled by its numeric
value) or a contract address (index, subindex). -/
inductive Address where
  | account (a : Nat)
  | contract (index subindex : Nat)
deriving DecidableEq

/-- `Address::matches_account` from concordium-std: an address matches an
account exactly when it is that account address. -/
def Address.matches_account : Address → Nat → Bool
  | Address.account a, acc => decide (a = acc)
  | Address.contract _ _, _ => false

/-- The per-address state (`AddressState` in the source): the set of owned
tokens and the set of operators enabled for this address. -/
structure AddressState where
  owned_tokens : Finset Nat
  operators : Finset Address
deriving DecidableEq

/-- `AddressState::empty`. -/
def AddressState.empty : AddressState := { owned_tokens := ∅, operators := ∅ }

/-- `TokenMetadata`: a URL and an optional hash of the content. -/
structure TokenMetadata where
  url : String
  hash : String
deriving DecidableEq

/-- First-match lookup in an association list (models `StateMap::get`). -/
def mlookup {κ ν : Type} [DecidableEq κ] : List (κ × ν) → κ → Option ν
  | [], _ => none
  | (a, b) :: t, k => if a = k then some b else mlookup t k

/-- Update the first entry with the given key, if present (models mutation
through `StateMap::get_mut` / `entry(..).and_modify`). -/
def mupdate {κ ν : Type} [DecidableEq κ] : List (κ × ν) → κ → (ν → ν) → List (κ × ν)
  | [], _, _ => []
  | (a, b) :: t, k, f => if a = k then (a, f b) :: t else (a, b) :: mupdate t k f

/-- Remove the entry with the given key, if present (models `StateMap::remove`). -/
def mremove {κ ν : Type} [DecidableEq κ] : List (κ × ν) → κ → List (κ × ν)
  | [], _ => []
  | (a, b) :: t, k => if a = k then t else (a, b) :: mremove t k

/-- Insert-or-overwrite (models `StateMap::insert`). -/
def minsert {κ ν : Type} [DecidableEq κ] (m : List (κ × ν)) (k : κ) (v : ν) :
    List (κ × ν) :=
  if (mlookup m k).isSome then mupdate m k (fun _ => v) else m ++ [(k, v)]

/-- `entry(k).or_insert_with(dflt)` followed by a mutation `f` of the entry. -/
def entryOrInsert {κ ν : Type} [DecidableEq κ] (m : List (κ × ν)) (k : κ) (dflt : ν)
    (f : ν → ν) : List (κ × ν) :=
  if (mlookup m k).isSome then mupdate m k f else m ++ [(k, f dflt)]

/-- `CustomContractError` from the source. -/
inductive CustomContractError where
  | ParseParams
  | LogFull
  | LogMalformed
  | TokenIdAlreadyExists
  | InvokeContractError
  | InvalidWeb3Id
  | LicenseNotFound
  | Unauthorized
deriving DecidableEq

/-- `ContractError = Cis2Error<CustomContractError>` (only the variants the
contract produces). -/
inductive ContractError where
  | InvalidTokenId
  | InsufficientFunds
  | Unauthorized
  | Custom (e : CustomContractError)
deriving DecidableEq

instance {ε α : Type} [DecidableEq ε] [DecidableEq α] : DecidableEq (Except ε α) :=
  fun a b =>
    match a, b with
    | Except.ok x, Except.ok y => decidable_of_iff (x = y) (by simp)
    | Except.error x, Except.error y => decidable_of_iff (x = y) (by simp)
    | Except.ok _, Except.error _ => isFalse (by simp)
    | Except.error _, Except.ok _ => isFalse (by simp)

/-- `TOKEN_METADATA_BASE_URL` (note the leading space, exactly as in the
source). -/
def TOKEN_METADATA_BASE_URL : String :=
  " https://web3id.backend.aesirx.io:8001/licenses/"

/-- `u32::swap_bytes` on a value below `2 ^ 32`. -/
def swap_bytes_u32 (n : Nat) : Nat :=
  n % 256 * 2 ^ 24 + n / 2 ^ 8 % 256 * 2 ^ 16 + n / 2 ^ 16 % 256 * 2 ^ 8 + n / 2 ^ 24 % 256

/-- The Rust format specifier `{:08}`: decimal, left-padded with zeros to
width 8. -/
def format_decimal_8 (n : Nat) : String :=
  let s := toString n
  if s.length < 8 then String.mk (List.replicate (8 - s.length) '0') ++ s else s

/-- `build_token_metadata_url`: swap the byte order of the token id and
append it to the base URL as an 8-digit decimal number. -/
def build_token_metadata_url (token_id : Nat) : String :=
  TOKEN_METADATA_BASE_URL ++ format_decimal_8 (swap_bytes_u32 token_id)

/-- The metadata record that `State::mint` stores for a token: the rebuilt
URL and an empty hash. -/
def mintMetadata (token : Nat) : TokenMetadata :=
  { url := build_token_metadata_url token, hash := "" }

/-- The contract state (`State<S>` in the source). -/
structure State where
  /-- The state for each address. -/
  state : List (Address × AddressState)
  /-- All of the token IDs. -/
  all_tokens : Finset Nat
  /-- Contract addresses providing implementations of additional standards. -/
  implementors : List (String × List (Nat × Nat))
  /-- Token metadata. -/
  metadata : List (Nat × TokenMetadata)
  /-- Valid global operators for minting. -/
  operators : Finset Address
  /-- The owner of the contract. -/
  owner : Address
deriving DecidableEq

/-- `State::empty`. -/
def State.empty (owner : Address) : State :=
  { state := [], all_tokens := ∅, implementors := [], metadata := [],
    operators := ∅, owner := owner }

/-- Insert a token into an address record's `owned_tokens` set. -/
def addTok (token : Nat) (a : AddressState) : AddressState :=
  { a with owned_tokens := insert token a.owned_tokens }

/-- Remove a token from an address record's `owned_tokens` set. -/
def removeTok (token : Nat) (a : AddressState) : AddressState :=
  { a with owned_tokens := a.owned_tokens.erase token }

/-- Insert an operator into an address record's `operators` set. -/
def addOp (operator : Address) (a : AddressState) : AddressState :=
  { a with operators := insert operator a.operators }

/-- Remove an operator from an address record's `operators` set. -/
def removeOp (operator : Address) (a : AddressState) : AddressState :=
  { a with operators := a.operators.erase operator }

/-- `State::contains_token`. -/
def State.contains_token (s : State) (token_id : Nat) : Bool :=
  decide (token_id ∈ s.all_tokens)

/-- `State::burn`: requires the token to exist and the owner to hold it;
removes it from the owner's set, the existence index and the metadata map. -/
def State.burn (s : State) (token : Nat) (owner : Address) :
    State × Option ContractError :=
  if token ∈ s.all_tokens then
    match mlookup s.state owner with
    | some address_state =>
      let s₁ := { s with state := mupdate s.state owner (removeTok token) }
      if token ∈ address_state.owned_tokens then
        ({ s₁ with all_tokens := s₁.all_tokens.erase token,
                   metadata := mremove s₁.metadata token }, none)
      else (s₁, some ContractError.InsufficientFunds)
    | none => (s, some ContractError.InsufficientFunds)
  else (s, some ContractError.InvalidTokenId)

/-- `State::mint`: fails with `TokenIdAlreadyExists` if the token is already
in the existence index (the failed `StateSet::insert` of a present element
leaves the set unchanged); otherwise records metadata (with a URL rebuilt
from the token id, shadowing the `metadata_url` argument as the source does)
and inserts the token into the owner's record. -/
def State.mint (s : State) (token : Nat) (_metadata_url : String) (owner : Address) :
    State × Option ContractError :=
  let s₀ := { s with all_tokens := insert token s.all_tokens }
  if token ∈ s.all_tokens then
    (s₀, some (ContractError.Custom CustomContractError.TokenIdAlreadyExists))
  else
    let metadata_url := build_token_metadata_url token
    let md : TokenMetadata := { url := metadata_url, hash := "" }
    let s₁ := { s₀ with metadata := minsert s₀.metadata token md }
    ({ s₁ with state := entryOrInsert s₁.state owner AddressState.empty (addTok token) },
     none)

/-- `State::balance`: errors on a nonexistent token, otherwise 1 or 0. -/
def State.balance (s : State) (token_id : Nat) (address : Address) :
    Except ContractError Nat :=
  if s.contains_token token_id then
    Except.ok (match mlookup s.state address with
      | some address_state => if token_id ∈ address_state.owned_tokens then 1 else 0
      | none => 0)
  else Except.error ContractError.InvalidTokenId

/-- `State::is_operator`. -/
def State.is_operator (s : State) (address owner : Address) : Bool :=
  match mlookup s.state owner with
  | some address_state => decide (address ∈ address_state.operators)
  | none => false

/-- `State::transfer`: requires the token to exist; amount 0 succeeds with
no change; amount other than 1 is `InsufficientFunds`; otherwise the token
moves from `from_`'s record to `to`'s record (created if absent). -/
def State.transfer (s : State) (token_id : Nat) (amount : Nat)
    (from_ to_ : Address) : State × Option ContractError :=
  if token_id ∈ s.all_tokens then
    if amount = 0 then (s, none)
    else if amount = 1 then
      match mlookup s.state from_ with
      | none => (s, some ContractError.InsufficientFunds)
      | some from_address_state =>
        let s₁ := { s with state := mupdate s.state from_ (removeTok token_id) }
        if token_id ∈ from_address_state.owned_tokens then
          ({ s₁ with state := entryOrInsert s₁.state to_ AddressState.empty (addTok token_id) },
           none)
        else (s₁, some ContractError.InsufficientFunds)
    else (s, some ContractError.InsufficientFunds)
  else (s, some ContractError.InvalidTokenId)

/-- `State::add_global_operator` (idempotent set insert). -/
def State.add_global_operator (s : State) (operator : Address) : State :=
  { s with operators := insert operator s.operators }

/-- `State::remove_global_operator` (idempotent set removal). -/
def State.remove_global_operator (s : State) (operator : Address) : State :=
  { s with operators := s.operators.erase operator }

/-- `State::add_operator`: creates the owner's record if absent and inserts
the operator into it. -/
def State.add_operator (s : State) (owner operator : Address) : State :=
  { s with state := entryOrInsert s.state owner AddressState.empty (addOp operator) }

/-- `State::remove_operator`: `entry(owner).and_modify(..)` — removes the
operator from the owner's record when the record exists, does nothing
otherwise. -/
def State.remove_operator (s : State) (owner operator : Address) : State :=
  { s with state := mupdate s.state owner (removeOp operator) }

/-- `SupportResult` from concordium-cis2 (contract addresses as
(index, subindex) pairs). -/
inductive SupportResult where
  | NoSupport
  | Support
  | SupportBy (addresses : List (Nat × Nat))
deriving DecidableEq

/-- `State::have_implementors`. -/
def State.have_implementors (s : State) (std_id : String) : SupportResult :=
  match mlookup s.implementors std_id with
  | some addresses => SupportResult.SupportBy addresses
  | none => SupportResult.NoSupport

/-- `State::set_implementors`: unconditional overwrite of the implementor
list for the standard. -/
def State.set_implementors (s : State) (std_id : String)
    (implementors : List (Nat × Nat)) : State :=
  { s with implementors := minsert s.implementors std_id implementors }

/-- `contract_init`: empty state with the init origin account as the owner. -/
def contract_init (init_origin : Nat) : State :=
  State.empty (Address.account init_origin)

/-- `MintParams`. -/
structure MintParams where
  owner : Nat
  token : Nat
  web3id : String

/-- `contract_mint`: the live authorization check is
`sender != state.owner && !state.operators.contains(&sender)`; on success the
token is minted via `State::mint` to `Address::Account(params.owner)`.
Event logging is modelled as always succeeding. -/
def contract_mint (_ctx_owner : Nat) (sender : Address) (s : State)
    (params : MintParams) : State × Option ContractError :=
  if sender ≠ s.owner ∧ sender ∉ s.operators then
    (s, some ContractError.Unauthorized)
  else
    let token_id := params.token
    let metadata_url := build_token_metadata_url token_id
    let token_owner := Address.account params.owner
    s.mint token_id metadata_url token_owner

/-- `BurnParams`. -/
structure BurnParams where
  token_id : Nat
  owner : Address
  amount : Nat

/-- `contract_burn`: requires `owner == sender`, then burns via `State::burn`. -/
def contract_burn (sender : Address) (s : State) (p : BurnParams) :
    State × Option ContractError :=
  if p.owner = sender then s.burn p.token_id p.owner
  else (s, some ContractError.Unauthorized)

/-- `Receiver` from concordium-cis2: an account, or a contract together with
the receive-hook entrypoint name. -/
inductive Receiver where
  | account (a : Nat)
  | contract (index subindex : Nat) (entrypoint : String)
deriving DecidableEq

/-- `Receiver::address`. -/
def Receiver.address : Receiver → Address
  | Receiver.account a => Address.account a
  | Receiver.contract i si _ => Address.contract i si

/-- One entry of the `transfer` parameter list. -/
structure TransferEntry where
  token_id : Nat
  amount : Nat
  from_ : Address
  to_ : Receiver
  data : List Nat
deriving DecidableEq

/-- One iteration of the `contract_transfer` loop.  The live authorization
check is `from != state.owner` (the sender is never consulted; the
commented-out `ensure!(from == sender)` in the source is dead code).  After
the state transfer, a contract recipient's receive hook is invoked; `hook`
models whether that external call succeeds (a failed call rejects with
`InvokeContractError`). -/
def transfer_step (hook : TransferEntry → Bool) (s : State) (e : TransferEntry) :
    State × Option ContractError :=
  if e.from_ ≠ s.owner then (s, some ContractError.Unauthorized)
  else
    match s.transfer e.token_id e.amount e.from_ e.to_.address with
    | (s', none) =>
      match e.to_ with
      | Receiver.contract _ _ _ =>
        if hook e then (s', none)
        else (s', some (ContractError.Custom CustomContractError.InvokeContractError))
      | Receiver.account _ => (s', none)
    | (s', some err) => (s', some err)

/-- `contract_transfer`: processes the transfer list in order; the first
failing entry stops the loop and rejects the call.  The `sender` argument is
carried because the source reads `ctx.sender()`, but the source never uses
it in an authorization check. -/
def contract_transfer (hook : TransferEntry → Bool) (sender : Address)
    (transfers : List TransferEntry) (s : State) : State × Option ContractError :=
  match transfers with
  | [] => (s, none)
  | e :: rest =>
    match transfer_step hook s e with
    | (s', none) => contract_transfer hook sender rest s'
    | (s', some err) => (s', some err)

/-- Modelled from the spec: the transactional call semantics ("an operation
either commits its entire state delta and returns success, or is aborted and
the state is left exactly as it was before the call began") are provided by
the Concordium runtime, not by code in this repository — a rejected update
has all its state changes reverted.  The observable post-state of one
external `transfer` call is therefore the final loop state on success and
the initial state on rejection. -/
def transfer_call_result (hook : TransferEntry → Bool) (sender : Address)
    (transfers : List TransferEntry) (s : State) : State :=
  match contract_transfer hook sender transfers s with
  | (s', none) => s'
  | (_, some _) => s

/-- `SetImplementorsParams`. -/
structure SetImplementorsParams where
  id : String
  implementors : List (Nat × Nat)

/-- `contract_set_implementor`: the live guard is
`if ctx.sender().matches_account(&ctx.owner()) { return Err(Unauthorized) }`
— it rejects exactly the sender that matches the instance creator account
and lets every other sender overwrite the implementor list. -/
def contract_set_implementor (ctx_owner : Nat) (sender : Address) (s : State)
    (params : SetImplementorsParams) : State × Option ContractError :=
  if sender.matches_account ctx_owner then (s, some ContractError.Unauthorized)
  else (s.set_implementors params.id params.implementors, none)

/-- `UpgradeParams`: the new module reference and an optional migration
entrypoint with its parameter. -/
structure UpgradeParams where
  module : Nat
  migrate : Option (String × List Nat)

/-- `contract_upgrade`: a sender that does not match the instance creator
account makes the function return `Ok(())` WITHOUT performing the upgrade
(the guard's body is `return Ok(())`, not a rejection).  For the owner the
upgrade and optional migration call are attempted; `host_upgrade_ok` and
`migrate_ok` model the success of those host operations.  The `Bool` result
component records whether `host.upgrade` was invoked. -/
def contract_upgrade (ctx_owner : Nat) (sender : Address) (params : UpgradeParams)
    (host_upgrade_ok : Nat → Bool) (migrate_ok : String → List Nat → Bool) :
    Bool × Option ContractError :=
  if ¬ sender.matches_account ctx_owner then (false, none)
  else if host_upgrade_ok params.module then
    match params.migrate with
    | none => (true, none)
    | some (func, parameters) =>
      if migrate_ok func parameters then (true, none)
      else (true, some (ContractError.Custom CustomContractError.InvokeContractError))
  else (false, some (ContractError.Custom CustomContractError.InvokeContractError))

/-- The Base58 alphabet used by the `bs58` crate. -/
def BASE58_ALPHABET : List Char :=
  "123456789ABCDEFGHJKLMNPQRSTUVWXYZabcdefghijkmnopqrstuvwxyz".toList

/-- Value of one Base58 digit, `none` for a character outside the alphabet. -/
def base58_digit (c : Char) : Option Nat :=
  let i := BASE58_ALPHABET.indexOf c
  if i < BASE58_ALPHABET.length then some i else none

/-- Big-endian numeric value of a Base58 string. -/
def base58_value (cs : List Char) : Option Nat :=
  cs.foldl
    (fun acc c =>
      match acc, base58_digit c with
      | some v, some d => some (v * 58 + d)
      | _, _ => none)
    (some 0)

/-- Fuel-driven big-endian byte expansion; the fuel only needs to exceed the
number of base-256 digits. -/
def nat_to_bytes_be_fuel : Nat → Nat → List Nat
  | 0, _ => []
  | fuel + 1, n => if n = 0 then [] else nat_to_bytes_be_fuel fuel (n / 256) ++ [n % 256]

/-- Minimal big-endian byte representation of a natural number (empty for 0);
`n` itself always suffices as fuel. -/
def nat_to_bytes_be (n : Nat) : List Nat := nat_to_bytes_be_fuel n n

/-- `bs58::decode(..).into_vec()`: big-endian base-58 value as bytes, with
one leading zero byte per leading '1' character. -/
def bs58_decode (str : String) : Option (List Nat) :=
  let chars := str.toList
  match base58_value chars with
  | none => none
  | some v =>
    let leading := (chars.takeWhile (fun c => decide (c = '1'))).length
    some (List.replicate leading 0 ++ nat_to_bytes_be v)

/-- Big-endian value of a byte string, used to form the 32-byte account
address value. -/
def bytes_to_account (bytes : List Nat) : Nat :=
  bytes.foldl (fun acc b => acc * 256 + b) 0

/-- `update_owner`: only the stored owner passes the guard; the
`new_owner_address` argument is immediately shadowed by the hardcoded Base58
string; the decoded bytes must be exactly 32 (`try_into` into `[u8; 32]`),
otherwise `ParseParams`. -/
def update_owner (sender : Address) (s : State) (_new_owner_address : String) :
    State × Option CustomContractError :=
  if sender ≠ s.owner then (s, some CustomContractError.Unauthorized)
  else
    let new_owner_address := "4MwARWeXdMs3YZ5MPPn2561ceani6AJAVTNPtwS6tceaG2qatK"
    match bs58_decode new_owner_address with
    | none => (s, some CustomContractError.ParseParams)
    | some new_owner_bytes =>
      if new_owner_bytes.length = 32 then
        ({ s with owner := Address.account (bytes_to_account new_owner_bytes) }, none)
      else (s, some CustomContractError.ParseParams)

/-- Number of address records whose `owned_tokens` set contains the token. -/
def ownCount (l : List (Address × AddressState)) (t : Nat) : Nat :=
  l.countP (fun e => decide (t ∈ e.2.owned_tokens))

/-- The specification's ledger invariant: a token id is in `all_tokens` iff
the metadata map contains it, iff exactly one address record's
`owned_tokens` set contains it. -/
def StateInv (s : State) : Prop :=
  ∀ t : Nat,
    (t ∈ s.all_tokens ↔ (mlookup s.metadata t).isSome) ∧
    (t ∈ s.all_tokens ↔ ownCount s.state t = 1)

/-- Every token held in some address record exists in the existence index. -/
def RecordsSound (s : State) : Prop :=
  ∀ e ∈ s.state, ∀ u ∈ e.2.owned_tokens, u ∈ s.all_tokens

/-- Well-formedness that is automatic for the real `StateMap`/`StateSet`
containers: metadata keys are unique; plus `RecordsSound`. -/
def StateWF (s : State) : Prop :=
  (s.metadata.map Prod.fst).Nodup ∧ RecordsSound s

instance (s : State) : Decidable (RecordsSound s) :=
  inferInstanceAs (Decidable (∀ e ∈ s.state, ∀ u ∈ e.2.owned_tokens, u ∈ s.all_tokens))

instance (s : State) : Decidable (StateWF s) :=
  inferInstanceAs (Decidable ((s.metadata.map Prod.fst).Nodup ∧ RecordsSound s))

/-- Reachable concrete state: init by account 1, then account 1 (the
contract owner) mints token 7 to account 2. -/
def c1state : State :=
  (contract_mint 1 (Address.account 1) (contract_init 1)
    { owner := 2, token := 7, web3id := "w" }).1

/-- Reachable concrete state: init by account 1, then the owner mints token
7 to itself. -/
def c8state : State :=
  (contract_mint 1 (Address.account 1) (contract_init 1)
    { owner := 1, token := 7, web3id := "w" }).1

/-- A valid transfer entry for `c8state`: the owner sends token 7 to
account 2. -/
def c8e1 : TransferEntry :=
  { token_id := 7, amount := 1, from_ := Address.account 1,
    to_ := Receiver.account 2, data := [] }

/-- An invalid transfer entry: token 9 does not exist. -/
def c8e2 : TransferEntry :=
  { token_id := 9, amount := 1, from_ := Address.account 1,
    to_ := Receiver.account 2, data := [] }

/-- A transfer list whose first entry is valid and whose second entry fails. -/
def c8entries : List TransferEntry := [c8e1, c8e2]

/-- The intermediate state after the first (valid) entry of `c8entries`. -/
def c8mid : State :=
  (contract_transfer (fun _ => true) (Address.account 1) [c8e1] c8state).1

/-- A state satisfying `StateInv` but not `RecordsSound`: two address
records both hold token 7 while the existence index is empty. -/
def c5pre : State :=
  { state := [(Address.account 1, { owned_tokens := {7}, operators := ∅ }),
              (Address.account 2, { owned_tokens := {7}, operators := ∅ })],
    all_tokens := ∅, implementors := [], metadata := [], operators := ∅,
    owner := Address.account 0 }

/-- The state produced by minting token 7 to account 3 on `c5pre`. -/
def c5post : State := (State.mint c5pre 7 "" (Address.account 3)).1

/-- The state produced by minting token 7 to account 2 on a fresh contract. -/
def c5wit : State := (State.mint (contract_init 0) 7 "" (Address.account 2)).1

/-- Fresh contract state owned by account 5, used for `update_owner`. -/
def c10state : State := contract_init 5

/-- The 37 bytes that `bs58::decode` produces for the hardcoded owner string
(a Concordium base58check address: version byte, 32 payload bytes, 4
checksum bytes). -/
def c10bytes : List Nat :=
  [1, 186, 159, 1, 190, 29, 178, 88, 101, 209, 77, 47, 75, 158, 183, 12, 63, 132,
   3, 251, 225, 214, 171, 38, 165, 109, 205, 141, 158, 47, 144, 159, 244, 230,
   106, 181, 244]

theorem mlookup_append {κ ν : Type} [DecidableEq κ] (m m' : List (κ × ν)) (k : κ) :
    mlookup (m ++ m') k =
      match mlookup m k with
      | some v => some v
      | none => mlookup m' k := by
  induction m with
  | nil => simp [mlookup]
  | cons e t ih =>
    obtain ⟨a, b⟩ := e
    by_cases h : a = k <;> simp [mlookup, h, ih]

theorem mlookup_eq_none_iff {κ ν : Type} [DecidableEq κ] (m : List (κ × ν)) (k : κ) :
    mlookup m k = none ↔ k ∉ m.map Prod.fst := by
  induction m with
  | nil => simp [mlookup]
  | cons e t ih =>
    obtain ⟨a, b⟩ := e
    by_cases h : a = k
    · subst h
      simp [mlookup]
    · simp [mlookup, h, ih, Ne.symm h]

theorem mlookup_mupdate_self {κ ν : Type} [DecidableEq κ] (m : List (κ × ν)) (k : κ)
    (f : ν → ν) : mlookup (mupdate m k f) k = (mlookup m k).map f := by
  induction m with
  | nil => simp [mlookup, mupdate]
  | cons e t ih =>
    obtain ⟨a, b⟩ := e
    by_cases h : a = k <;> simp [mlookup, mupdate, h, ih]

theorem mlookup_mupdate_ne {κ ν : Type} [DecidableEq κ] (m : List (κ × ν)) (k u : κ)
    (f : ν → ν) (h : u ≠ k) : mlookup (mupdate m k f) u = mlookup m u := by
  induction m with
  | nil => simp [mupdate]
  | cons e t ih =>
    obtain ⟨a, b⟩ := e
    by_cases hak : a = k
    · subst hak
      have hau : a ≠ u := Ne.symm h
      simp [mlookup, mupdate, hau]
    · by_cases hau : a = u
      · subst hau
        simp [mlookup, mupdate, hak]
      · simp [mlookup, mupdate, hak, hau, ih]

theorem mupdate_of_lookup_none {κ ν : Type} [DecidableEq κ] (m : List (κ × ν)) (k : κ)
    (f : ν → ν) (h : mlookup m k = none) : mupdate m k f = m := by
  induction m with
  | nil => simp [mupdate]
  | cons e t ih =>
    obtain ⟨a, b⟩ := e
    by_cases hak : a = k
    · simp [mlookup, hak] at h
    · simp [mlookup, hak] at h
      simp [mupdate, hak, ih h]

theorem mupdate_of_fix {κ ν : Type} [DecidableEq κ] (m : List (κ × ν)) (k : κ)
    (f : ν → ν) (v : ν) (hl : mlookup m k = some v) (hf : f v = v) :
    mupdate m k f = m := by
  induction m with
  | nil => simp [mlookup] at hl
  | cons e t ih =>
    obtain ⟨a, b⟩ := e
    by_cases hak : a = k
    · simp [mlookup, hak] at hl
      simp [mupdate, hak, hl ▸ hf]
    · simp [mlookup, hak] at hl
      simp [mupdate, hak, ih hl]

theorem mupdate_mupdate {κ ν : Type} [DecidableEq κ] (m : List (κ × ν)) (k : κ)
    (f g : ν → ν) : mupdate (mupdate m k f) k g = mupdate m k (fun v => g (f v)) := by
  induction m with
  | nil => simp [mupdate]
  | cons e t ih =>
    obtain ⟨a, b⟩ := e
    by_cases hak : a = k <;> simp [mupdate, hak, ih]

theorem mupdate_append_right {κ ν : Type} [DecidableEq κ] (m : List (κ × ν)) (k : κ)
    (v : ν) (f : ν → ν) (h : mlookup m k = none) :
    mupdate (m ++ [(k, v)]) k f = m ++ [(k, f v)] := by
  induction m with
  | nil => simp [mupdate]
  | cons e t ih =>
    obtain ⟨a, b⟩ := e
    by_cases hak : a = k
    · simp [mlookup, hak] at h
    · simp [mlookup, hak] at h
      simp [mupdate, hak, ih h]

theorem map_fst_mupdate {κ ν : Type} [DecidableEq κ] (m : List (κ × ν)) (k : κ)
    (f : ν → ν) : (mupdate m k f).map Prod.fst = m.map Prod.fst := by
  induction m with
  | nil => simp [mupdate]
  | cons e t ih =>
    obtain ⟨a, b⟩ := e
    by_cases hak : a = k <;> simp [mupdate, hak, ih]

theorem mem_mupdate {κ ν : Type} [DecidableEq κ] (m : List (κ × ν)) (k : κ) (f : ν → ν)
    (e' : κ × ν) (he : e' ∈ mupdate m k f) :
    e' ∈ m ∨ ∃ e ∈ m, e' = (e.1, f e.2) := by
  induction m with
  | nil => simp [mupdate] at he
  | cons e t ih =>
    obtain ⟨a, b⟩ := e
    by_cases hak : a = k
    · simp only [mupdate, if_pos hak] at he
      rcases List.mem_cons.mp he with h | h
      · exact Or.inr ⟨(a, b), List.mem_cons_self _ _, h⟩
      · exact Or.inl (List.mem_cons_of_mem _ h)
    · simp only [mupdate, if_neg hak] at he
      rcases List.mem_cons.mp he with h | h
      · exact Or.inl (h ▸ List.mem_cons_self _ _)
      · rcases ih h with h' | ⟨e₀, he₀, h'⟩
        · exact Or.inl (List.mem_cons_of_mem _ h')
        · exact Or.inr ⟨e₀, List.mem_cons_of_mem _ he₀, h'⟩

theorem mlookup_mremove_self {κ ν : Type} [DecidableEq κ] (m : List (κ × ν)) (k : κ)
    (hnd : (m.map Prod.fst).Nodup) : mlookup (mremove m k) k = none := by
  induction m with
  | nil => simp [mremove, mlookup]
  | cons e t ih =>
    obtain ⟨a, b⟩ := e
    simp only [List.map_cons, List.nodup_cons] at hnd
    by_cases hak : a = k
    · subst hak
      simp only [mremove, if_pos rfl]
      exact (mlookup_eq_none_iff t a).mpr hnd.1
    · simp only [mremove, if_neg hak]
      simp [mlookup, hak, ih hnd.2]

theorem mlookup_mremove_ne {κ ν : Type} [DecidableEq κ] (m : List (κ × ν)) (k u : κ)
    (h : u ≠ k) : mlookup (mremove m k) u = mlookup m u := by
  induction m with
  | nil => simp [mremove]
  | cons e t ih =>
    obtain ⟨a, b⟩ := e
    by_cases hak : a = k
    · subst hak
      have hau : a ≠ u := Ne.symm h
      simp [mremove, mlookup, hau]
    · by_cases hau : a = u
      · subst hau
        simp [mremove, mlookup, hak]
      · simp [mremove, mlookup, hak, hau, ih]

theorem mem_keys_mremove {κ ν : Type} [DecidableEq κ] (m : List (κ × ν)) (k x : κ)
    (hx : x ∈ (mremove m k).map Prod.fst) : x ∈ m.map Prod.fst := by
  induction m with
  | nil => simp [mremove] at hx
  | cons e t ih =>
    obtain ⟨a, b⟩ := e
    by_cases hak : a = k
    · simp only [mremove, if_pos hak] at hx
      exact List.mem_cons_of_mem _ hx
    · simp only [mremove, if_neg hak, List.map_cons, List.mem_cons] at hx
      rcases hx with h | h
      · exact List.mem_cons.mpr (Or.inl h)
      · exact List.mem_cons.mpr (Or.inr (ih h))

theorem nodup_keys_mremove {κ ν : Type} [DecidableEq κ] (m : List (κ × ν)) (k : κ)
    (hnd : (m.map Prod.fst).Nodup) : ((mremove m k).map Prod.fst).Nodup := by
  induction m with
  | nil => simp [mremove]
  | cons e t ih =>
    obtain ⟨a, b⟩ := e
    simp only [List.map_cons, List.nodup_cons] at hnd
    by_cases hak : a = k
    · simp only [mremove, if_pos hak]
      exact hnd.2
    · simp only [mremove, if_neg hak, List.map_cons, List.nodup_cons]
      exact ⟨fun hmem => hnd.1 (mem_keys_mremove t k a hmem), ih hnd.2⟩

theorem ownCount_nil (t : Nat) : ownCount [] t = 0 := rfl

theorem ownCount_cons (e : Address × AddressState) (l : List (Address × AddressState))
    (t : Nat) :
    ownCount (e :: l) t = ownCount l t + (if t ∈ e.2.owned_tokens then 1 else 0) := by
  simp [ownCount, List.countP_cons]

theorem ownCount_append (l l' : List (Address × AddressState)) (t : Nat) :
    ownCount (l ++ l') t = ownCount l t + ownCount l' t := by
  simp [ownCount, List.countP_append]

theorem ownCount_eq_zero_iff (l : List (Address × AddressState)) (t : Nat) :
    ownCount l t = 0 ↔ ∀ e ∈ l, t ∉ e.2.owned_tokens := by
  simp [ownCount, List.countP_eq_zero]

theorem ownCount_pos_of_lookup (l : List (Address × AddressState)) (k : Address)
    (v : AddressState) (t : Nat) (hl : mlookup l k = some v) (ht : t ∈ v.owned_tokens) :
    1 ≤ ownCount l t := by
  induction l with
  | nil => simp [mlookup] at hl
  | cons e tl ih =>
    obtain ⟨a, b⟩ := e
    rw [ownCount_cons]
    by_cases hak : a = k
    · simp [mlookup, hak] at hl
      subst hl
      rw [if_pos ht]
      omega
    · simp [mlookup, hak] at hl
      have := ih hl
      omega

theorem ownCount_mupdate_congr (l : List (Address × AddressState)) (k : Address)
    (f : AddressState → AddressState) (t : Nat)
    (hf : ∀ a, t ∈ (f a).owned_tokens ↔ t ∈ a.owned_tokens) :
    ownCount (mupdate l k f) t = ownCount l t := by
  induction l with
  | nil => simp [mupdate]
  | cons e tl ih =>
    obtain ⟨a, b⟩ := e
    by_cases hak : a = k
    · simp only [mupdate, if_pos hak]
      rw [ownCount_cons, ownCount_cons]
      simp [hf b]
    · simp only [mupdate, if_neg hak]
      rw [ownCount_cons, ownCount_cons, ih]

theorem ownCount_mupdate_add (l : List (Address × AddressState)) (k : Address)
    (v : AddressState) (t : Nat) (hl : mlookup l k = some v) (h0 : ownCount l t = 0) :
    ownCount (mupdate l k (addTok t)) t = 1 := by
  induction l with
  | nil => simp [mlookup] at hl
  | cons e tl ih =>
    obtain ⟨a, b⟩ := e
    rw [ownCount_cons] at h0
    by_cases hak : a = k
    · simp only [mupdate, if_pos hak]
      rw [ownCount_cons]
      have hmem : t ∈ (addTok t b).owned_tokens := by simp [addTok]
      rw [if_pos hmem]
      omega
    · simp only [mupdate, if_neg hak]
      simp [mlookup, hak] at hl
      rw [ownCount_cons, ih hl (by omega)]
      omega

theorem ownCount_mupdate_erase (l : List (Address × AddressState)) (k : Address)
    (v : AddressState) (t : Nat) (hl : mlookup l k = some v) (ht : t ∈ v.owned_tokens)
    (h1 : ownCount l t = 1) :
    ownCount (mupdate l k (removeTok t)) t = 0 := by
  induction l with
  | nil => simp [mlookup] at hl
  | cons e tl ih =>
    obtain ⟨a, b⟩ := e
    rw [ownCount_cons] at h1
    by_cases hak : a = k
    · simp [mlookup, hak] at hl
      subst hl
      rw [if_pos ht] at h1
      simp only [mupdate, if_pos hak]
      rw [ownCount_cons]
      have hnot : t ∉ (removeTok t b).owned_tokens := by simp [removeTok]
      rw [if_neg hnot]
      omega
    · simp [mlookup, hak] at hl
      have hge := ownCount_pos_of_lookup tl k v t hl ht
      by_cases hb : t ∈ b.owned_tokens
      · rw [if_pos hb] at h1
        omega
      · rw [if_neg hb] at h1
        simp only [mupdate, if_neg hak]
        rw [ownCount_cons, ih hl (by omega), if_neg hb]

theorem sound_mupdate_erase (l : List (Address × AddressState)) (k : Address)
    (v : AddressState) (t : Nat) (all : Finset Nat)
    (hl : mlookup l k = some v) (ht : t ∈ v.owned_tokens) (h1 : ownCount l t = 1)
    (hs : ∀ e ∈ l, ∀ u ∈ e.2.owned_tokens, u ∈ all) :
    ∀ e ∈ mupdate l k (removeTok t), ∀ u ∈ e.2.owned_tokens, u ∈ all.erase t := by
  induction l with
  | nil => simp [mlookup] at hl
  | cons e₀ tl ih =>
    obtain ⟨a, b⟩ := e₀
    rw [ownCount_cons] at h1
    by_cases hak : a = k
    · simp [mlookup, hak] at hl
      subst hl
      rw [if_pos ht] at h1
      have htl0 : ownCount tl t = 0 := by omega
      simp only [mupdate, if_pos hak]
      intro e he u hu
      rcases List.mem_cons.mp he with rfl | he'
      · simp only [removeTok, Finset.mem_erase] at hu
        exact Finset.mem_erase.mpr
          ⟨hu.1, hs (a, b) (List.mem_cons_self _ _) u hu.2⟩
      · have hub := hs e (List.mem_cons_of_mem _ he') u hu
        have hnt : t ∉ e.2.owned_tokens := (ownCount_eq_zero_iff tl t).mp htl0 e he'
        exact Finset.mem_erase.mpr ⟨fun h => hnt (h ▸ hu), hub⟩
    · simp [mlookup, hak] at hl
      have hge := ownCount_pos_of_lookup tl k v t hl ht
      by_cases hb : t ∈ b.owned_tokens
      · rw [if_pos hb] at h1
        omega
      · rw [if_neg hb] at h1
        simp only [mupdate, if_neg hak]
        intro e he u hu
        rcases List.mem_cons.mp he with rfl | he'
        · have hub := hs (a, b) (List.mem_cons_self _ _) u hu
          exact Finset.mem_erase.mpr ⟨fun h => hb (h ▸ hu), hub⟩
        · exact ih hl h1 (fun e' he'' u' hu' => hs e' (List.mem_cons_of_mem _ he'') u' hu')
            e he' u hu

theorem entryOrInsert_idem {κ ν : Type} [DecidableEq κ] (m : List (κ × ν)) (k : κ)
    (d : ν) (f : ν → ν) (hf : ∀ v, f (f v) = f v) :
    entryOrInsert (entryOrInsert m k d f) k d f = entryOrInsert m k d f := by
  by_cases h : (mlookup m k).isSome
  · obtain ⟨v, hv⟩ := Option.isSome_iff_exists.mp h
    have hinner : entryOrInsert m k d f = mupdate m k f := by
      rw [entryOrInsert, if_pos h]
    rw [hinner]
    have h2 : (mlookup (mupdate m k f) k).isSome := by
      rw [mlookup_mupdate_self, hv]
      rfl
    rw [entryOrInsert, if_pos h2, mupdate_mupdate]
    congr 1
    funext w
    exact hf w
  · have hnone : mlookup m k = none := Option.not_isSome_iff_eq_none.mp h
    have hinner : entryOrInsert m k d f = m ++ [(k, f d)] := by
      rw [entryOrInsert, if_neg h]
    rw [hinner]
    have h2 : (mlookup (m ++ [(k, f d)]) k).isSome := by
      rw [mlookup_append, hnone]
      simp [mlookup]
    rw [entryOrInsert, if_pos h2, mupdate_append_right _ _ _ _ hnone, hf]

theorem mint_snd (s : State) (t : Nat) (murl : String) (o : Address) :
    (State.mint s t murl o).2 = none ∨
      (State.mint s t murl o).2 =
        some (ContractError.Custom CustomContractError.TokenIdAlreadyExists) := by
  by_cases h : t ∈ s.all_tokens <;> simp [State.mint, h]

theorem contract_transfer_append (hook : TransferEntry → Bool) (sender : Address)
    (l₁ l₂ : List TransferEntry) (s : State) :
    contract_transfer hook sender (l₁ ++ l₂) s =
      match contract_transfer hook sender l₁ s with
      | (s₁, none) => contract_transfer hook sender l₂ s₁
      | (s₁, some e) => (s₁, some e) := by
  induction l₁ generalizing s with
  | nil => simp [contract_transfer]
  | cons e t ih =>
    simp only [List.cons_append, contract_transfer]
    rcases hstep : transfer_step hook s e with ⟨s', o⟩
    cases o with
    | none => simp [ih]
    | some err => simp

theorem mint_preserves (s : State) (hInv : StateInv s) (hWF : StateWF s)
    (t : Nat) (murl : String) (o : Address) (s' : State)
    (h : State.mint s t murl o = (s', none)) : StateInv s' ∧ StateWF s' := by
  by_cases hmem : t ∈ s.all_tokens
  · simp [State.mint, hmem] at h
  · have hnotSome : ¬ (mlookup s.metadata t).isSome = true :=
      fun hs => hmem ((hInv t).1.mpr hs)
    have hmeta0 : mlookup s.metadata t = none :=
      Option.not_isSome_iff_eq_none.mp hnotSome
    have hkeys : t ∉ s.metadata.map Prod.fst := (mlookup_eq_none_iff _ _).mp hmeta0
    have hcount0 : ownCount s.state t = 0 :=
      (ownCount_eq_zero_iff _ _).mpr (fun e he ht' => hmem (hWF.2 e he t ht'))
    have hmintEq : State.mint s t murl o =
        ({ s with all_tokens := insert t s.all_tokens,
                  metadata := minsert s.metadata t (mintMetadata t),
                  state := entryOrInsert s.state o AddressState.empty (addTok t) },
         none) := by
      simp [State.mint, hmem, mintMetadata]
    rw [hmintEq] at h
    have hs' : s' = { s with all_tokens := insert t s.all_tokens,
                             metadata := minsert s.metadata t (mintMetadata t),
                             state := entryOrInsert s.state o AddressState.empty
                               (addTok t) } :=
      (congrArg Prod.fst h).symm
    subst hs'
    have hminsert : minsert s.metadata t (mintMetadata t) =
        s.metadata ++ [(t, mintMetadata t)] := by
      simp [minsert, hmeta0]
    refine ⟨?_, ?_, ?_⟩
    · intro u
      constructor
      · dsimp only
        rw [hminsert, mlookup_append]
        by_cases hut : u = t
        · rw [hut]
          simp [hmeta0, mlookup]
        · rcases hmu : mlookup s.metadata u with _ | w <;>
            (have hbase := (hInv u).1
             rw [hmu] at hbase
             simp only [hmu, Finset.mem_insert, hut, false_or]
             simpa [mlookup, Ne.symm hut] using hbase)
      · dsimp only
        rcases hlo : mlookup s.state o with _ | v
        · have hE : entryOrInsert s.state o AddressState.empty (addTok t) =
              s.state ++ [(o, addTok t AddressState.empty)] := by
            simp [entryOrInsert, hlo]
          rw [hE, ownCount_append, ownCount_cons, ownCount_nil]
          by_cases hut : u = t
          · rw [hut]
            have hmemadd : t ∈ (addTok t AddressState.empty).owned_tokens := by
              simp [addTok]
            rw [if_pos hmemadd, hcount0]
            simp
          · have hnotadd : u ∉ (addTok t AddressState.empty).owned_tokens := by
              simp [addTok, AddressState.empty, hut]
            rw [if_neg hnotadd, Finset.mem_insert]
            simp only [hut, false_or]
            simpa using (hInv u).2
        · have hE : entryOrInsert s.state o AddressState.empty (addTok t) =
              mupdate s.state o (addTok t) := by
            simp [entryOrInsert, hlo]
          rw [hE]
          by_cases hut : u = t
          · rw [hut]
            rw [ownCount_mupdate_add s.state o v t hlo hcount0]
            simp
          · rw [ownCount_mupdate_congr s.state o (addTok t) u
                (fun a => by simp [addTok, hut]),
              Finset.mem_insert]
            simp only [hut, false_or]
            exact (hInv u).2
    · dsimp only
      rw [hminsert]
      simp only [List.map_append, List.map_cons, List.map_nil]
      rw [List.nodup_append]
      refine ⟨hWF.1, List.nodup_singleton _, ?_⟩
      intro a ha hb
      rw [List.mem_singleton] at hb
      subst hb
      exact hkeys ha
    · intro e he u hu
      dsimp only at he ⊢
      rcases hlo : mlookup s.state o with _ | v
      · have hE : entryOrInsert s.state o AddressState.empty (addTok t) =
            s.state ++ [(o, addTok t AddressState.empty)] := by
          simp [entryOrInsert, hlo]
        rw [hE] at he
        rcases List.mem_append.mp he with h' | h'
        · exact Finset.mem_insert_of_mem (hWF.2 e h' u hu)
        · rw [List.mem_singleton] at h'
          subst h'
          simp only [addTok, AddressState.empty] at hu
          rcases Finset.mem_insert.mp hu with rfl | hu'
          · exact Finset.mem_insert_self _ _
          · exact absurd hu' (Finset.not_mem_empty u)
      · have hE : entryOrInsert s.state o AddressState.empty (addTok t) =
            mupdate s.state o (addTok t) := by
          simp [entryOrInsert, hlo]
        rw [hE] at he
        rcases mem_mupdate s.state o (addTok t) e he with h' | ⟨e₀, he₀, rfl⟩
        · exact Finset.mem_insert_of_mem (hWF.2 e h' u hu)
        · simp only [addTok, Finset.mem_insert] at hu
          rcases hu with rfl | hu'
          · exact Finset.mem_insert_self _ _
          · exact Finset.mem_insert_of_mem (hWF.2 e₀ he₀ u hu')

theorem burn_preserves (s : State) (hInv : StateInv s) (hWF : StateWF s)
    (t : Nat) (o : Address) (s' : State)
    (h : State.burn s t o = (s', none)) : StateInv s' ∧ StateWF s' := by
  by_cases hmem : t ∈ s.all_tokens
  · rcases hlo : mlookup s.state o with _ | v
    · simp [State.burn, hmem, hlo] at h
    · by_cases hto : t ∈ v.owned_tokens
      · have hburnEq : State.burn s t o =
            ({ s with state := mupdate s.state o (removeTok t),
                      all_tokens := s.all_tokens.erase t,
                      metadata := mremove s.metadata t }, none) := by
          simp [State.burn, hmem, hlo, hto]
        rw [hburnEq] at h
        have hs' : s' = { s with state := mupdate s.state o (removeTok t),
                                 all_tokens := s.all_tokens.erase t,
                                 metadata := mremove s.metadata t } :=
          (congrArg Prod.fst h).symm
        subst hs'
        have hc1 : ownCount s.state t = 1 := (hInv t).2.mp hmem
        refine ⟨?_, ?_, ?_⟩
        · intro u
          constructor
          · dsimp only
            by_cases hut : u = t
            · rw [hut, mlookup_mremove_self s.metadata t hWF.1]
              simp [Finset.not_mem_erase]
            · rw [mlookup_mremove_ne s.metadata t u hut, Finset.mem_erase]
              exact ⟨fun hh => (hInv u).1.mp hh.2, fun hh => ⟨hut, (hInv u).1.mpr hh⟩⟩
          · dsimp only
            by_cases hut : u = t
            · rw [hut, ownCount_mupdate_erase s.state o v t hlo hto hc1]
              simp [Finset.not_mem_erase]
            · rw [ownCount_mupdate_congr s.state o (removeTok t) u
                  (fun a => by simp [removeTok, Finset.mem_erase, hut]),
                Finset.mem_erase]
              exact ⟨fun hh => (hInv u).2.mp hh.2, fun hh => ⟨hut, (hInv u).2.mpr hh⟩⟩
        · dsimp only
          exact nodup_keys_mremove s.metadata t hWF.1
        · intro e he u hu
          dsimp only at he ⊢
          exact sound_mupdate_erase s.state o v t s.all_tokens hlo hto hc1 hWF.2 e he u hu
      · simp [State.burn, hmem, hlo, hto] at h
  · simp [State.burn, hmem] at h

theorem transfer_preserves (s : State) (hInv : StateInv s) (hWF : StateWF s)
    (t amount : Nat) (fr toA : Address) (s' : State)
    (h : State.transfer s t amount fr toA = (s', none)) : StateInv s' ∧ StateWF s' := by
  by_cases hmem : t ∈ s.all_tokens
  · by_cases h0 : amount = 0
    · have heq : State.transfer s t amount fr toA = (s, none) := by
        simp [State.transfer, hmem, h0]
      rw [heq] at h
      have hs' : s' = s := (congrArg Prod.fst h).symm
      subst hs'
      exact ⟨hInv, hWF⟩
    · by_cases h1 : amount = 1
      · rcases hlo : mlookup s.state fr with _ | v
        · simp [State.transfer, hmem, h0, h1, hlo] at h
        · by_cases hto : t ∈ v.owned_tokens
          · have htrEq : State.transfer s t amount fr toA =
                ({ s with state := entryOrInsert (mupdate s.state fr (removeTok t)) toA
                            AddressState.empty (addTok t) }, none) := by
              simp [State.transfer, hmem, h0, h1, hlo, hto]
            rw [htrEq] at h
            have hs' : s' = { s with
                state := entryOrInsert (mupdate s.state fr (removeTok t)) toA
                  AddressState.empty (addTok t) } :=
              (congrArg Prod.fst h).symm
            subst hs'
            have hc1 : ownCount s.state t = 1 := (hInv t).2.mp hmem
            have hc0 : ownCount (mupdate s.state fr (removeTok t)) t = 0 :=
              ownCount_mupdate_erase s.state fr v t hlo hto hc1
            have hL1sound : ∀ e ∈ mupdate s.state fr (removeTok t),
                ∀ u ∈ e.2.owned_tokens, u ∈ s.all_tokens := by
              intro e he u hu
              rcases mem_mupdate s.state fr (removeTok t) e he with h' | ⟨e₀, he₀, hre⟩
              · exact hWF.2 e h' u hu
              · rw [hre] at hu
                simp only [removeTok] at hu
                exact hWF.2 e₀ he₀ u (Finset.mem_of_mem_erase hu)
            refine ⟨?_, ?_, ?_⟩
            · intro u
              refine ⟨(hInv u).1, ?_⟩
              dsimp only
              rcases hlt : mlookup (mupdate s.state fr (removeTok t)) toA with _ | w
              · have hE : entryOrInsert (mupdate s.state fr (removeTok t)) toA
                    AddressState.empty (addTok t) =
                    mupdate s.state fr (removeTok t) ++
                      [(toA, addTok t AddressState.empty)] := by
                  simp [entryOrInsert, hlt]
                rw [hE, ownCount_append, ownCount_cons, ownCount_nil]
                by_cases hut : u = t
                · rw [hut]
                  have hmemadd : t ∈ (addTok t AddressState.empty).owned_tokens := by
                    simp [addTok]
                  rw [if_pos hmemadd, hc0]
                  simp [hmem]
                · have hnotadd : u ∉ (addTok t AddressState.empty).owned_tokens := by
                    simp [addTok, AddressState.empty, hut]
                  rw [if_neg hnotadd,
                    ownCount_mupdate_congr s.state fr (removeTok t) u
                      (fun a => by simp [removeTok, Finset.mem_erase, hut])]
                  simpa using (hInv u).2
              · have hE : entryOrInsert (mupdate s.state fr (removeTok t)) toA
                    AddressState.empty (addTok t) =
                    mupdate (mupdate s.state fr (removeTok t)) toA (addTok t) := by
                  simp [entryOrInsert, hlt]
                rw [hE]
                by_cases hut : u = t
                · rw [hut, ownCount_mupdate_add (mupdate s.state fr (removeTok t)) toA
                      w t hlt hc0]
                  simp [hmem]
                · rw [ownCount_mupdate_congr _ toA (addTok t) u
                      (fun a => by simp [addTok, hut]),
                    ownCount_mupdate_congr s.state fr (removeTok t) u
                      (fun a => by simp [removeTok, Finset.mem_erase, hut])]
                  exact (hInv u).2
            · exact hWF.1
            · intro e he u hu
              dsimp only at he ⊢
              by_cases hlt : (mlookup (mupdate s.state fr (removeTok t)) toA).isSome
              · have hE : entryOrInsert (mupdate s.state fr (removeTok t)) toA
                    AddressState.empty (addTok t) =
                    mupdate (mupdate s.state fr (removeTok t)) toA (addTok t) := by
                  rw [entryOrInsert, if_pos hlt]
                rw [hE] at he
                rcases mem_mupdate (mupdate s.state fr (removeTok t)) toA (addTok t)
                    e he with h' | ⟨e₀, he₀, hre⟩
                · exact hL1sound e h' u hu
                · rw [hre] at hu
                  simp only [addTok, Finset.mem_insert] at hu
                  rcases hu with rfl | hu'
                  · exact hmem
                  · exact hL1sound e₀ he₀ u hu'
              · have hE : entryOrInsert (mupdate s.state fr (removeTok t)) toA
                    AddressState.empty (addTok t) =
                    mupdate s.state fr (removeTok t) ++
                      [(toA, addTok t AddressState.empty)] := by
                  rw [entryOrInsert, if_neg hlt]
                rw [hE] at he
                rcases List.mem_append.mp he with h' | h'
                · exact hL1sound e h' u hu
                · rw [List.mem_singleton] at h'
                  rw [h'] at hu
                  simp only [addTok, AddressState.empty] at hu
                  rcases Finset.mem_insert.mp hu with rfl | hu'
                  · exact hmem
                  · exact absurd hu' (Finset.not_mem_empty u)
          · simp [State.transfer, hmem, h0, h1, hlo, hto] at h
      · simp [State.transfer, hmem, h0, h1] at h
  · simp [State.transfer, hmem] at h

/-- C1 (code bug): in the reachable state `c1state`, account 2 owns token 7
(balance 1), yet the transfer `{token 7, amount 1, from account 2, to
account 3}` submitted by sender account 2 is rejected with `Unauthorized`,
because the code compares `from` against the contract owner instead of
authorizing the sender as the token's owner. -/
theorem c1_owner_transfer_rejected :
    State.balance c1state 7 (Address.account 2) = Except.ok 1 ∧
      Address.account 2 ≠ c1state.owner ∧
      contract_transfer (fun _ => true) (Address.account 2)
          [{ token_id := 7, amount := 1, from_ := Address.account 2,
             to_ := Receiver.account 3, data := [] }] c1state =
        (c1state, some ContractError.Unauthorized) := by decide

/-- C2 (code bug): the `setImplementors` guard is inverted — the contract
owner's call is rejected with `Unauthorized` while a non-owner's call
succeeds and overwrites the implementor list. -/
theorem c2_set_implementors_inverted :
    contract_set_implementor 1 (Address.account 1) (contract_init 1)
        { id := "TEST", implementors := [(5, 0)] } =
      (contract_init 1, some ContractError.Unauthorized) ∧
      contract_set_implementor 1 (Address.account 2) (contract_init 1)
          { id := "TEST", implementors := [(5, 0)] } =
        ((contract_init 1).set_implementors "TEST" [(5, 0)], none) ∧
      mlookup ((contract_set_implementor 1 (Address.account 2) (contract_init 1)
          { id := "TEST", implementors := [(5, 0)] }).1.implementors) "TEST" =
        some [(5, 0)] := by decide

/-- C3 (code bug): an `upgrade` call by a non-owner returns success
(`Ok(())`, no error) without invoking the upgrade, instead of rejecting
with `Unauthorized`; an owner call does attempt the upgrade. -/
theorem c3_upgrade_silent_success :
    contract_upgrade 1 (Address.account 2) { module := 5, migrate := none }
        (fun _ => true) (fun _ _ => true) = (false, none) ∧
      contract_upgrade 1 (Address.account 1) { module := 5, migrate := none }
          (fun _ => true) (fun _ _ => true) = (true, none) := by decide

/-- C4 (counterexample to the claim as stated): a zero-amount transfer of a
token that is NOT in the existence index fails with `InvalidTokenId` — the
existence check precedes the zero-amount early return. -/
theorem c4_zero_transfer_fails_on_missing :
    State.transfer (contract_init 1) 7 0 (Address.account 1) (Address.account 2) =
      (contract_init 1, some ContractError.InvalidTokenId) := by decide

/-- C4 (amended): for every token id that IS in the existence index and all
addresses, a transfer of amount 0 succeeds and leaves the state unchanged. -/
theorem c4_zero_transfer_noop (s : State) (t : Nat) (a b : Address)
    (h : t ∈ s.all_tokens) :
    State.transfer s t 0 a b = (s, none) := by
  simp [State.transfer, h]

/-- C4 witness: the amended theorem applied at the concrete state
`c1state` and token 7. -/
theorem c4_zero_transfer_witness :
    7 ∈ c1state.all_tokens ∧
      State.transfer c1state 7 0 (Address.account 2) (Address.account 3) =
        (c1state, none) :=
  ⟨by decide,
   c4_zero_transfer_noop c1state 7 (Address.account 2) (Address.account 3) (by decide)⟩

/-- C6: the `mint` entrypoint rejects with `Unauthorized` exactly when the
sender is neither the stored contract owner nor a global operator, and in
that case the state is left unchanged (no token is minted). -/
theorem c6_mint_auth_iff (o : Nat) (sender : Address) (s : State) (p : MintParams) :
    ((contract_mint o sender s p).2 = some ContractError.Unauthorized ↔
        ¬ (sender = s.owner ∨ sender ∈ s.operators)) ∧
      (¬ (sender = s.owner ∨ sender ∈ s.operators) →
        (contract_mint o sender s p).1 = s) := by
  have hsplit : (sender ≠ s.owner ∧ sender ∉ s.operators) ↔
      ¬ (sender = s.owner ∨ sender ∈ s.operators) := by tauto
  by_cases hauth : sender ≠ s.owner ∧ sender ∉ s.operators
  · refine ⟨?_, fun _ => ?_⟩
    · simp only [contract_mint, if_pos hauth]
      simp [hsplit.mp hauth]
    · simp only [contract_mint, if_pos hauth]
  · refine ⟨?_, fun hc => absurd (hsplit.mpr hc) hauth⟩
    simp only [contract_mint, if_neg hauth]
    constructor
    · intro hmint
      rcases mint_snd s p.token (build_token_metadata_url p.token)
          (Address.account p.owner) with h1 | h1 <;>
        rw [h1] at hmint <;> simp at hmint
    · intro hcon
      exact absurd (hsplit.mpr hcon) hauth

/-- C6 witness: a sender that is neither the owner nor a global operator is
rejected and the state is unchanged, at a concrete input. -/
theorem c6_mint_auth_witness :
    (contract_mint 1 (Address.account 9) c1state
        { owner := 9, token := 8, web3id := "w" }).2 = some ContractError.Unauthorized ∧
      (contract_mint 1 (Address.account 9) c1state
        { owner := 9, token := 8, web3id := "w" }).1 = c1state :=
  ⟨(c6_mint_auth_iff 1 (Address.account 9) c1state
      { owner := 9, token := 8, web3id := "w" }).1.mpr (by decide),
   (c6_mint_auth_iff 1 (Address.account 9) c1state
      { owner := 9, token := 8, web3id := "w" }).2 (by decide)⟩

/-- C7: minting a token that is already in the existence index fails with
`TokenIdAlreadyExists`, and the state after the failed attempt equals the
state before it (the failed set insert of a present element is a no-op). -/
theorem c7_mint_existing_fails_unchanged (s : State) (t : Nat) (murl : String)
    (o : Address) (h : t ∈ s.all_tokens) :
    State.mint s t murl o =
      (s, some (ContractError.Custom CustomContractError.TokenIdAlreadyExists)) := by
  simp [State.mint, h, Finset.insert_eq_self.mpr h]

/-- C7 witness: re-minting token 7 on `c1state` fails and leaves the state
equal to `c1state`. -/
theorem c7_mint_existing_witness :
    7 ∈ c1state.all_tokens ∧
      State.mint c1state 7 "" (Address.account 9) =
        (c1state, some (ContractError.Custom CustomContractError.TokenIdAlreadyExists)) :=
  ⟨by decide,
   c7_mint_existing_fails_unchanged c1state 7 "" (Address.account 9) (by decide)⟩

/-- C8: if some entry of a transfer list fails when it is reached, the whole
call rejects, and under the runtime's all-or-nothing call semantics the
observable state equals the pre-call state — the effects of the entries
preceding the failing one are discarded. -/
theorem c8_transfer_atomicity (hook : TransferEntry → Bool) (sender : Address)
    (entries pre post : List TransferEntry) (e : TransferEntry) (s s₁ : State)
    (hsplit : entries = pre ++ e :: post)
    (hpre : contract_transfer hook sender pre s = (s₁, none))
    (hfail : (transfer_step hook s₁ e).2.isSome) :
    (contract_transfer hook sender entries s).2.isSome ∧
      transfer_call_result hook sender entries s = s := by
  subst hsplit
  rcases hstep : transfer_step hook s₁ e with ⟨s₂, o⟩
  cases o with
  | none => rw [hstep] at hfail; simp at hfail
  | some err =>
    have hrun : contract_transfer hook sender (pre ++ e :: post) s = (s₂, some err) := by
      rw [contract_transfer_append, hpre]
      simp [contract_transfer, hstep]
    refine ⟨?_, ?_⟩
    · rw [hrun]
      rfl
    · rw [transfer_call_result, hrun]

/-- C8 witness: on `c8state`, the list `c8entries` has a valid first entry
and a second entry referencing nonexistent token 9; the call rejects and
the observable state is the original `c8state`. -/
theorem c8_transfer_atomicity_witness :
    (contract_transfer (fun _ => true) (Address.account 1) c8entries c8state).2.isSome ∧
      transfer_call_result (fun _ => true) (Address.account 1) c8entries c8state =
        c8state :=
  c8_transfer_atomicity (fun _ => true) (Address.account 1) c8entries [c8e1] [] c8e2
    c8state c8mid rfl (by decide) (by decide)

/-- C9: adding a per-owner operator twice yields the same state as adding it
once, and removing an address that is not an operator of the owner succeeds
(the operation cannot fail) and leaves the state unchanged. -/
theorem c9_operator_idempotent (s : State) (owner x : Address)
    (h : s.is_operator x owner = false) :
    State.add_operator (State.add_operator s owner x) owner x =
        State.add_operator s owner x ∧
      State.remove_operator s owner x = s := by
  constructor
  · have hid := entryOrInsert_idem s.state owner AddressState.empty (addOp x)
      (fun v => by simp [addOp])
    simp only [State.add_operator]
    rw [hid]
  · rw [State.remove_operator]
    cases hl : mlookup s.state owner with
    | none => rw [mupdate_of_lookup_none _ _ _ hl]
    | some v =>
      have hx : x ∉ v.operators := by
        rw [State.is_operator, hl] at h
        simpa using h
      have hfix : removeOp x v = v := by
        simp [removeOp, Finset.erase_eq_of_not_mem hx]
      rw [mupdate_of_fix _ _ _ _ hl hfix]

/-- C9 witness: concrete idempotence on `c1state` with a non-operator. -/
theorem c9_operator_witness :
    c1state.is_operator (Address.account 4) (Address.account 2) = false ∧
      State.add_operator
          (State.add_operator c1state (Address.account 2) (Address.account 4))
          (Address.account 2) (Address.account 4) =
        State.add_operator c1state (Address.account 2) (Address.account 4) ∧
      State.remove_operator c1state (Address.account 2) (Address.account 4) = c1state :=
  ⟨by decide,
   (c9_operator_idempotent c1state (Address.account 2) (Address.account 4) (by decide)).1,
   (c9_operator_idempotent c1state (Address.account 2) (Address.account 4) (by decide)).2⟩

/-- C10 (counterexample to the claim as stated): the hardcoded Base58 string
decodes to 37 bytes, not 32, so even the stored owner's call fails with
`ParseParams` and the owner is never set to the decoded account. -/
theorem c10_update_owner_not_updated :
    bs58_decode "4MwARWeXdMs3YZ5MPPn2561ceani6AJAVTNPtwS6tceaG2qatK" = some c10bytes ∧
      c10bytes.length = 37 ∧
      update_owner (Address.account 5) c10state "new-owner" =
        (c10state, some CustomContractError.ParseParams) := by decide

/-- C10 (amended): `update_owner` ignores its `new_owner_address` argument
(any two argument strings yield identical results); a caller equal to the
stored owner receives `ParseParams` (the hardcoded Base58 string decodes to
37 bytes, which fails the 32-byte conversion) with the state unchanged; any
other caller receives `Unauthorized` with the state unchanged. -/
theorem c10_update_owner_amended (s : State) (caller : Address) (arg1 arg2 : String) :
    update_owner caller s arg1 = update_owner caller s arg2 ∧
      (caller = s.owner →
        update_owner caller s arg1 = (s, some CustomContractError.ParseParams)) ∧
      (caller ≠ s.owner →
        update_owner caller s arg1 = (s, some CustomContractError.Unauthorized)) := by
  refine ⟨rfl, fun hc => ?_, fun hc => ?_⟩
  · have hne : ¬ caller ≠ s.owner := fun h => h hc
    have hd : bs58_decode "4MwARWeXdMs3YZ5MPPn2561ceani6AJAVTNPtwS6tceaG2qatK" =
        some c10bytes := by decide
    have hlen : ¬ (c10bytes.length = 32) := by decide
    simp only [update_owner, if_neg hne, hd]
    rw [if_neg hlen]
  · simp only [update_owner, if_pos hc]

theorem init_state_inv (n : Nat) : StateInv (contract_init n) := by
  intro u
  constructor
  · simp [contract_init, State.empty, mlookup]
  · simp [contract_init, State.empty, ownCount]

/-- C5 (counterexample to the claim as stated): `c5pre` satisfies the
invariant (token 7 is in no existence index, no metadata, and not exactly
one record — it is in two records), yet a successful mint of token 7 brings
it into the existence index while three records now hold it, so the
invariant does not survive. -/
theorem c5_invariant_not_inductive :
    StateInv c5pre ∧ State.mint c5pre 7 "" (Address.account 3) = (c5post, none) ∧
      ¬ StateInv c5post := by
  refine ⟨?_, by decide, ?_⟩
  · intro u
    by_cases h : u = 7
    · rw [h]
      exact ⟨by decide, by decide⟩
    · constructor
      · simp [c5pre, mlookup]
      · have hcnt : ownCount c5pre.state u = 0 := by
          simp [c5pre, ownCount, List.countP_cons, h]
        simp [c5pre, hcnt]
        intro hfalse
        exact absurd hfalse (by simp [c5pre] at hcnt ⊢; omega)
  · intro hInvPost
    have h1 : 7 ∈ c5post.all_tokens := by decide
    have h2 : ownCount c5post.state 7 = 3 := by decide
    have h3 := (hInvPost 7).2.mp h1
    rw [h2] at h3
    exact absurd h3 (by decide)

/-- C5 (amended): the invariant is preserved by every successful mint, burn
and transfer, provided the pre-state additionally satisfies `StateWF` —
in particular that every token held in some record is in the existence
index (the condition the counterexample violates); `StateWF` is preserved
as well. -/
theorem c5_invariant_preserved (s : State) (hInv : StateInv s) (hWF : StateWF s) :
    (∀ t murl o s', State.mint s t murl o = (s', none) → StateInv s' ∧ StateWF s') ∧
      (∀ t o s', State.burn s t o = (s', none) → StateInv s' ∧ StateWF s') ∧
      (∀ t a fr toA s', State.transfer s t a fr toA = (s', none) →
        StateInv s' ∧ StateWF s') :=
  ⟨fun t murl o s' h => mint_preserves s hInv hWF t murl o s' h,
   fun t o s' h => burn_preserves s hInv hWF t o s' h,
   fun t a fr toA s' h => transfer_preserves s hInv hWF t a fr toA s' h⟩

/-- C5 witness: the amended theorem applied to the empty initial state and
the successful mint of token 7 producing `c5wit`. -/
theorem c5_invariant_witness : StateInv c5wit ∧ StateWF c5wit :=
  (c5_invariant_preserved (contract_init 0) (init_state_inv 0) (by decide)).1 7 ""
    (Address.account 2) c5wit (by decide)

/-- C10 witness: the amended theorem at concrete owner and non-owner
callers. -/
theorem c10_update_owner_witness :
    update_owner (Address.account 5) c10state "a" =
        (c10state, some CustomContractError.ParseParams) ∧
      update_owner (Address.account 6) c10state "a" =
        (c10state, some CustomContractError.Unauthorized) :=
  ⟨(c10_update_owner_amended c10state (Address.account 5) "a" "b").2.1 rfl,
   (c10_update_owner_amended c10state (Address.account 6) "a" "b").2.2 (by decide)⟩

end LicenseContract
